import Mathlib

/-!
Verification of the cornucopia points-ledger core (Go) against its
natural-language specification.

The development shallowly embeds the code of
`internal/domain/account.go`, `internal/domain/journal_entry.go` and
`internal/usecase/transfer.go`.  Go `int64` values are modelled as `Int`
with explicit wrap-around (`wrap64`) exactly where Go's two's-complement
arithmetic can overflow; strings are Lean `String`s; the SHA-256 digest
used by `JournalEntry.ComputeHash` (Go `crypto/sha256` +
`encoding/hex`) is implemented executably below so that hashes can be
computed inside proofs.
-/

namespace Cornucopia

/-! ## SHA-256 (model of Go `crypto/sha256`), hex (model of `encoding/hex`) -/

/-- Truncation to a 32-bit word, as Go `uint32` arithmetic does. -/
def w32 (n : Nat) : Nat := n % 4294967296

/-- Rotate a 32-bit word right by `k` bits. -/
def rotr (k n : Nat) : Nat := w32 ((n >>> k) ||| (n <<< (32 - k)))

/-- SHA-256 `Ch` function. -/
def shaCh (x y z : Nat) : Nat := (x &&& y) ^^^ ((x ^^^ 4294967295) &&& z)

/-- SHA-256 `Maj` function. -/
def shaMaj (x y z : Nat) : Nat := (x &&& y) ^^^ (x &&& z) ^^^ (y &&& z)

/-- SHA-256 big sigma 0. -/
def bSig0 (x : Nat) : Nat := rotr 2 x ^^^ rotr 13 x ^^^ rotr 22 x

/-- SHA-256 big sigma 1. -/
def bSig1 (x : Nat) : Nat := rotr 6 x ^^^ rotr 11 x ^^^ rotr 25 x

/-- SHA-256 small sigma 0. -/
def sSig0 (x : Nat) : Nat := rotr 7 x ^^^ rotr 18 x ^^^ (x >>> 3)

/-- SHA-256 small sigma 1. -/
def sSig1 (x : Nat) : Nat := rotr 17 x ^^^ rotr 19 x ^^^ (x >>> 10)

/-- The 64 SHA-256 round constants. -/
def shaK : List Nat :=
  [1116352408, 1899447441, 3049323471, 3921009573, 961987163, 1508970993,
   2453635748, 2870763221, 3624381080, 310598401, 607225278, 1426881987,
   1925078388, 2162078206, 2614888103, 3248222580, 3835390401, 4022224774,
   264347078, 604807628, 770255983, 1249150122, 1555081692, 1996064986,
   2554220882, 2821834349, 2952996808, 3210313671, 3336571891, 3584528711,
   113926993, 338241895, 666307205, 773529912, 1294757372, 1396182291,
   1695183700, 1986661051, 2177026350, 2456956037, 2730485921, 2820302411,
   3259730800, 3345764771, 3516065817, 3600352804, 4094571909, 275423344,
   430227734, 506948616, 659060556, 883997877, 958139571, 1322822218,
   1537002063, 1747873779, 1955562222, 2024104815, 2227730452, 2361852424,
   2428436474, 2756734187, 3204031479, 3329325298]

/-- The SHA-256 initial hash state. -/
def shaInitH : List Nat :=
  [1779033703, 3144134277, 1013904242, 2773480762,
   1359893119, 2600822924, 528734635, 1541459225]

/-- Extend the message schedule; `rws` holds the words produced so far,
most recent first. -/
def wext (rws : List Nat) : Nat → List Nat
  | 0 => rws
  | k + 1 =>
    wext (w32 (sSig1 (rws.getD 1 0) + rws.getD 6 0 + sSig0 (rws.getD 14 0) + rws.getD 15 0) :: rws) k

/-- The 64-word message schedule of a 16-word block. -/
def schedule (block : List Nat) : List Nat := (wext block.reverse 48).reverse

/-- One SHA-256 round on the 8-word working state. -/
def shaRound (s : List Nat) (k w : Nat) : List Nat :=
  match s with
  | [a, b, c, d, e, f, g, h] =>
    let t1 := w32 (h + bSig1 e + shaCh e f g + k + w)
    let t2 := w32 (bSig0 a + shaMaj a b c)
    [w32 (t1 + t2), a, b, c, w32 (d + t1), e, f, g]
  | other => other

/-- Compress one 16-word block into the hash state. -/
def compressBlock (hst block : List Nat) : List Nat :=
  let ws := schedule block
  let s := (shaK.zip ws).foldl (fun st p => shaRound st p.1 p.2) hst
  (hst.zip s).map fun p => w32 (p.1 + p.2)

/-- Big-endian bytes of a 32-bit word. -/
def word4 (x : Nat) : List Nat :=
  [x / 16777216 % 256, x / 65536 % 256, x / 256 % 256, x % 256]

/-- SHA-256 padding: append `0x80`, zeros, and the 64-bit big-endian bit length. -/
def padBytes (msg : List Nat) : List Nat :=
  let len := msg.length
  let lenBits := len * 8
  let k := (119 - len % 64) % 64
  msg ++ [128] ++ List.replicate k 0 ++
    [lenBits / 72057594037927936 % 256, lenBits / 281474976710656 % 256,
     lenBits / 1099511627776 % 256, lenBits / 4294967296 % 256,
     lenBits / 16777216 % 256, lenBits / 65536 % 256, lenBits / 256 % 256, lenBits % 256]

/-- Group bytes into big-endian 32-bit words. -/
def bytesToWords : List Nat → List Nat
  | b0 :: b1 :: b2 :: b3 :: rest =>
    (b0 * 16777216 + b1 * 65536 + b2 * 256 + b3) :: bytesToWords rest
  | _ => []

/-- Split a list into chunks of 16, with explicit fuel for structural recursion. -/
def chunks16Go : Nat → List Nat → List (List Nat)
  | 0, _ => []
  | _, [] => []
  | fuel + 1, x :: xs => ((x :: xs).take 16) :: chunks16Go fuel ((x :: xs).drop 16)

/-- Split a word list into 16-word blocks. -/
def chunks16 (l : List Nat) : List (List Nat) := chunks16Go l.length l

/-- The SHA-256 digest (32 bytes) of a byte sequence: each word of the final
hash state is emitted as four big-endian bytes. -/
def sha256Bytes (msg : List Nat) : List Nat :=
  ((((chunks16 (bytesToWords (padBytes msg))).foldl compressBlock shaInitH).map word4).flatten)

/-- The lowercase hex alphabet, as in Go `encoding/hex`. -/
def hextable : String := "0123456789abcdef"

/-- Two lowercase hex characters of a byte, as Go `encoding/hex` emits them. -/
def byteHex (b : Nat) : List Char :=
  [hextable.data.getD (b / 16) '0', hextable.data.getD (b % 16) '0']

/-- Lowercase hex encoding of a byte sequence (Go `hex.EncodeToString`). -/
def bytesToHex (bs : List Nat) : String := String.mk (bs.map byteHex).flatten

/-- UTF-8 encoding of one code point, as Go strings store text. -/
def utf8Encode (c : Char) : List Nat :=
  let n := c.toNat
  if n < 128 then [n]
  else if n < 2048 then [192 + n / 64, 128 + n % 64]
  else if n < 65536 then [224 + n / 4096, 128 + n / 64 % 64, 128 + n % 64]
  else [240 + n / 262144, 128 + n / 4096 % 64, 128 + n / 64 % 64, 128 + n % 64]

/-- The UTF-8 bytes of a string (Go `[]byte(s)`). -/
def strBytes (s : String) : List Nat := (s.data.map utf8Encode).flatten

/-- Lowercase-hex SHA-256 of a string: Go
`hex.EncodeToString(sha256.Sum256([]byte(s))[:])`. -/
def sha256Hex (s : String) : String := bytesToHex (sha256Bytes (strBytes s))

/-- Sanity check of the SHA-256 model against the NIST test vector for "abc". -/
theorem sha256Hex_nist_abc :
    sha256Hex "abc" = "ba7816bf8f01cfea414140de5dae2223b00361a396177a9cb410ff61f20015ad" := by
  decide

/-- Sanity check of the SHA-256 model against the empty-message test vector. -/
theorem sha256Hex_nist_empty :
    sha256Hex "" = "e3b0c44298fc1c149afbf4c8996fb92427ae41e4649b934ca495991b7852b855" := by
  decide

/-! ## Go int64 arithmetic -/

/-- The maximum Go `int64` value (`math.MaxInt64`). -/
def int64Max : Int := 9223372036854775807

/-- The minimum Go `int64` value (`math.MinInt64`). -/
def int64Min : Int := -9223372036854775808

/-- Two's-complement wrap-around of Go `int64` addition and subtraction. -/
def wrap64 (x : Int) : Int :=
  (x + 9223372036854775808) % 18446744073709551616 - 9223372036854775808

/-- Values already in `int64` range are unchanged by the wrap. -/
theorem wrap64_eq_self (x : Int) (hlo : int64Min ≤ x) (hhi : x ≤ int64Max) : wrap64 x = x := by
  unfold int64Min at hlo
  unfold int64Max at hhi
  unfold wrap64
  rw [Int.emod_eq_of_lt (by omega) (by omega)]
  omega

/-! ## Domain errors (`internal/domain`, the `Err...` values) -/

/-- The domain error values surfaced by the transfer engine; `storage` stands
for an I/O error returned by a repository operation. -/
inductive Err where
  | invalidAmount
  | amountTooLarge
  | selfTransfer
  | invalidIdempotencyKey
  | descriptionTooLong
  | insufficientBalance
  | balanceOverflow
  | accountNotFound
  | storage
  deriving DecidableEq

/-! ## Account (`internal/domain/account.go`) -/

/-- An account, as in `account.go`; ids are the canonical string form used
throughout `usecase/transfer.go`. -/
structure Account where
  id : String
  ownerId : String
  balance : Int
  canOverdraft : Bool
  deriving DecidableEq

deriving instance DecidableEq for Except

/-- Go `Account.Deposit`: rejects non-positive amounts, guards overflow against
`math.MaxInt64`, then adds. -/
def Account.deposit (a : Account) (amount : Int) : Except Err Account :=
  if amount ≤ 0 then .error .invalidAmount
  else if a.balance > int64Max - amount then .error .balanceOverflow
  else .ok { a with balance := wrap64 (a.balance + amount) }

/-- Go `Account.Withdraw`: rejects non-positive amounts, rejects a short
balance unless overdraft is allowed, then subtracts (with int64 wrap, as the
Go subtraction does — there is no lower-bound guard). -/
def Account.withdraw (a : Account) (amount : Int) : Except Err Account :=
  if amount ≤ 0 then .error .invalidAmount
  else if a.canOverdraft = false ∧ a.balance < amount then .error .insufficientBalance
  else .ok { a with balance := wrap64 (a.balance - amount) }

/-! ## JournalEntry (`internal/domain/journal_entry.go`) -/

/-- A journal entry, as in `journal_entry.go`; the timestamp is kept as the
nanosecond Unix time that `ComputeHash` feeds to the payload. -/
structure JournalEntry where
  id : String
  fromAccountId : String
  toAccountId : String
  amount : Int
  description : String
  idempotencyKey : String
  previousHash : String
  hash : String
  timestamp : Int
  deriving DecidableEq

/-- Go `JournalEntry.ComputeHash`: SHA-256 over the colon-joined payload
`prev:id:from:to:amount:unixNano:idempotencyKey`, lowercase hex. -/
def JournalEntry.computeHash (t : JournalEntry) : String :=
  sha256Hex (t.previousHash ++ ":" ++ t.id ++ ":" ++ t.fromAccountId ++ ":" ++
    t.toAccountId ++ ":" ++ toString t.amount ++ ":" ++ toString t.timestamp ++ ":" ++
    t.idempotencyKey)

/-- Go `JournalEntry.ValidateHash`: the stored hash equals the recomputation. -/
def JournalEntry.validateHash (t : JournalEntry) : Bool :=
  t.hash == t.computeHash

/-- The hash preimage exactly as the spec words it in §4.2:
`previous_hash || ":" || id || ":" || from || ":" || to || ":" ||
decimal(amount) || ":" || nanosecond_unix_timestamp || ":" || idempotency_key`. -/
def hashPayloadSpec (t : JournalEntry) : String :=
  t.previousHash ++ ":" ++ t.id ++ ":" ++ t.fromAccountId ++ ":" ++ t.toAccountId ++ ":" ++
    toString t.amount ++ ":" ++ toString t.timestamp ++ ":" ++ t.idempotencyKey

/-- Sanity check that the Int formatter matches Go `%d` on negatives. -/
theorem intDec_matches_go : toString (-42 : Int) = "-42" ∧ toString (7 : Int) = "7" := by
  constructor <;> rfl

/-! ## Shape lemmas about the digest and its hex encoding -/

/-- A SHA-256 round keeps the working state 8 words long. -/
theorem shaRound_length (s : List Nat) (k w : Nat) : (shaRound s k w).length = s.length := by
  unfold shaRound
  split <;> simp

/-- Folding rounds keeps the working-state length. -/
theorem foldl_shaRound_length (l : List (Nat × Nat)) :
    ∀ s : List Nat, (l.foldl (fun st p => shaRound st p.1 p.2) s).length = s.length := by
  induction l with
  | nil => intro s; rfl
  | cons p ps ih => intro s; rw [List.foldl_cons, ih, shaRound_length]

/-- Block compression keeps the hash state 8 words long. -/
theorem compressBlock_length (hst block : List Nat) (h : hst.length = 8) :
    (compressBlock hst block).length = 8 := by
  unfold compressBlock
  simp [foldl_shaRound_length, h]

/-- Folding block compression keeps the hash state 8 words long. -/
theorem foldl_compressBlock_length (blocks : List (List Nat)) :
    ∀ hst : List Nat, hst.length = 8 → (blocks.foldl compressBlock hst).length = 8 := by
  induction blocks with
  | nil => intro hst h; exact h
  | cons b bs ih => intro hst h; rw [List.foldl_cons]; exact ih _ (compressBlock_length _ _ h)

/-- Emitting four bytes per word gives four times as many bytes. -/
theorem length_flatten_map_word4 (l : List Nat) : ((l.map word4).flatten).length = 4 * l.length := by
  induction l with
  | nil => rfl
  | cons x xs ih => simp [word4, ih]; omega

/-- A SHA-256 digest is 32 bytes. -/
theorem sha256Bytes_length (m : List Nat) : (sha256Bytes m).length = 32 := by
  unfold sha256Bytes
  rw [length_flatten_map_word4, foldl_compressBlock_length _ _ (by rfl)]

/-- Hex encoding gives two characters per byte. -/
theorem length_bytesToHex (bs : List Nat) : (bytesToHex bs).length = 2 * bs.length := by
  show ((bs.map byteHex).flatten).length = 2 * bs.length
  induction bs with
  | nil => rfl
  | cons b l ih => simp [byteHex, ih]; omega

/-- Indexing the hex table with a fallback always lands in the hex table. -/
theorem getD_hextable_mem (i : Nat) : hextable.data.getD i '0' ∈ hextable.data := by
  rcases Nat.lt_or_ge i 16 with h | h
  · interval_cases i <;> decide
  · have : hextable.data.length ≤ i := by
      simpa [hextable] using h
    rw [List.getD_eq_default _ _ this]
    decide

/-- Every character emitted for a byte is a lowercase hex character. -/
theorem mem_byteHex_mem_hextable (b : Nat) (c : Char) (h : c ∈ byteHex b) :
    c ∈ hextable.data := by
  simp only [byteHex, List.mem_cons, List.not_mem_nil, or_false] at h
  rcases h with h | h <;> rw [h] <;> exact getD_hextable_mem _

/-- Every character of a hex encoding is a lowercase hex character. -/
theorem mem_bytesToHex_mem_hextable (bs : List Nat) (c : Char) (h : c ∈ (bytesToHex bs).data) :
    c ∈ hextable.data := by
  have h2 : c ∈ (bs.map byteHex).flatten := h
  rw [List.mem_flatten] at h2
  rcases h2 with ⟨l, hl, hc⟩
  rw [List.mem_map] at hl
  rcases hl with ⟨b, _, rfl⟩
  exact mem_byteHex_mem_hextable b c hc

/-- ComputeHash depends only on the seven payload fields. -/
theorem computeHash_fields (t u : JournalEntry)
    (h1 : t.previousHash = u.previousHash) (h2 : t.id = u.id)
    (h3 : t.fromAccountId = u.fromAccountId) (h4 : t.toAccountId = u.toAccountId)
    (h5 : t.amount = u.amount) (h6 : t.timestamp = u.timestamp)
    (h7 : t.idempotencyKey = u.idempotencyKey) :
    t.computeHash = u.computeHash := by
  unfold JournalEntry.computeHash
  rw [h1, h2, h3, h4, h5, h6, h7]

/-- Setting the stored hash does not change the recomputed hash. -/
theorem computeHash_set_hash (t : JournalEntry) (x : String) :
    JournalEntry.computeHash { t with hash := x } = t.computeHash :=
  computeHash_fields _ _ rfl rfl rfl rfl rfl rfl rfl

/-- Setting the stored hash and the description does not change the
recomputed hash. -/
theorem computeHash_set_hash_description (t : JournalEntry) (x d : String) :
    JournalEntry.computeHash { t with hash := x, description := d } = t.computeHash :=
  computeHash_fields _ _ rfl rfl rfl rfl rfl rfl rfl

/-- Setting the stored hash to the recomputation makes the entry validate. -/
theorem validateHash_set (t : JournalEntry) :
    JournalEntry.validateHash { t with hash := t.computeHash } = true := by
  unfold JournalEntry.validateHash
  rw [computeHash_set_hash]
  exact beq_self_eq_true _

/-! ## Claims about the domain entities -/

/-- C6: Withdraw fails `InvalidAmount` on non-positive amounts, fails
`InsufficientBalance` exactly when overdraft is off and the balance is short,
and otherwise decrements the balance by the amount, going negative only when
overdraft is on; the spec's boundary cases (balance 100 without overdraft vs
withdrawals of 101 and 100, balance 50 with overdraft vs a withdrawal of 100)
behave as stated. -/
theorem withdraw_semantics (a : Account) (amount : Int) :
    (amount ≤ 0 → a.withdraw amount = .error .invalidAmount) ∧
    (0 < amount → a.canOverdraft = false → a.balance < amount →
      a.withdraw amount = .error .insufficientBalance) ∧
    (0 < amount → (a.canOverdraft = true ∨ amount ≤ a.balance) →
      a.withdraw amount = .ok { a with balance := wrap64 (a.balance - amount) }) ∧
    (a.canOverdraft = false → 0 < amount → amount ≤ a.balance → a.balance ≤ int64Max →
      wrap64 (a.balance - amount) = a.balance - amount ∧ 0 ≤ a.balance - amount) ∧
    Account.withdraw ⟨"x", "o", 100, false⟩ 101 = .error .insufficientBalance ∧
    Account.withdraw ⟨"x", "o", 100, false⟩ 100 = .ok ⟨"x", "o", 0, false⟩ ∧
    Account.withdraw ⟨"x", "o", 50, true⟩ 100 = .ok ⟨"x", "o", -50, true⟩ := by
  refine ⟨?_, ?_, ?_, ?_, by decide, by decide, by decide⟩
  · intro h
    unfold Account.withdraw
    rw [if_pos h]
  · intro h1 h2 h3
    unfold Account.withdraw
    rw [if_neg (by omega), if_pos ⟨h2, h3⟩]
  · intro h1 h2
    unfold Account.withdraw
    rw [if_neg (by omega), if_neg ?hcond]
    case hcond =>
      rcases h2 with h | h
      · simp [h]
      · intro hx
        omega
  · intro h1 h2 h3 h4
    refine ⟨wrap64_eq_self _ ?_ ?_, by omega⟩
    · unfold int64Min
      omega
    · unfold int64Max at h4 ⊢
      omega

/-- C6 witness: the overdraft boundary case evaluated through the theorem. -/
theorem withdraw_semantics_witness :
    Account.withdraw ⟨"x", "o", 100, false⟩ 101 = .error .insufficientBalance :=
  (withdraw_semantics ⟨"x", "o", 100, false⟩ 101).2.1 (by decide) (by decide) (by decide)

/-- C10: with overdraft enabled every positive withdrawal succeeds and stores
the two's-complement wrap of `balance - amount`; there is no lower-bound
guard, so withdrawing 1 from the minimum `int64` balance wraps around to the
maximum (large positive) `int64` value instead of failing. -/
theorem withdraw_no_underflow_guard (a : Account) (amount : Int)
    (hov : a.canOverdraft = true) (hpos : 0 < amount) :
    a.withdraw amount = .ok { a with balance := wrap64 (a.balance - amount) } ∧
    Account.withdraw ⟨"a", "o", int64Min, true⟩ 1 = .ok ⟨"a", "o", int64Max, true⟩ ∧
    int64Min < 0 ∧ 0 < int64Max := by
  refine ⟨?_, by decide, by decide, by decide⟩
  unfold Account.withdraw
  rw [if_neg (by omega), if_neg (by simp [hov])]

/-- C10 witness: withdrawing under overdraft at a concrete wrapping state. -/
theorem withdraw_no_underflow_guard_witness :
    Account.withdraw ⟨"b", "o", -5, true⟩ 3 = .ok ⟨"b", "o", wrap64 (-5 - 3), true⟩ :=
  (withdraw_no_underflow_guard ⟨"b", "o", -5, true⟩ 3 (by decide) (by decide)).1

/-- C7: ComputeHash is the lowercase-hex SHA-256 of the colon-joined payload
`previous_hash:id:from:to:decimal(amount):unix_nanos:idempotency_key` (64
lowercase hex characters), and ValidateHash returns true exactly when the
stored hash equals this recomputation, so an entry whose hash was set to
`ComputeHash()` at creation validates. -/
theorem computeHash_spec (t : JournalEntry) :
    t.computeHash = sha256Hex (hashPayloadSpec t) ∧
    (t.validateHash = true ↔ t.hash = t.computeHash) ∧
    JournalEntry.validateHash { t with hash := t.computeHash } = true ∧
    t.computeHash.length = 64 ∧
    ∀ c ∈ t.computeHash.data, c ∈ hextable.data := by
  refine ⟨rfl, ?_, validateHash_set t, ?_, ?_⟩
  · simp [JournalEntry.validateHash]
  · show (bytesToHex (sha256Bytes _)).length = 64
    rw [length_bytesToHex, sha256Bytes_length]
  · intro c hc
    exact mem_bytesToHex_mem_hextable _ _ hc

/-- C7 witness: the hash facts evaluated at a concrete journal entry. -/
theorem computeHash_spec_witness :
    JournalEntry.validateHash
        { (⟨"id1", "a", "b", 5, "d", "k", "", "", 3⟩ : JournalEntry) with
          hash := JournalEntry.computeHash ⟨"id1", "a", "b", 5, "d", "k", "", "", 3⟩ } = true ∧
    (JournalEntry.computeHash ⟨"id1", "a", "b", 5, "d", "k", "", "", 3⟩).length = 64 :=
  ⟨(computeHash_spec ⟨"id1", "a", "b", 5, "d", "k", "", "", 3⟩).2.2.1,
   (computeHash_spec ⟨"id1", "a", "b", 5, "d", "k", "", "", 3⟩).2.2.2.1⟩

/-- C9: ComputeHash reads neither the Description field nor the stored Hash
field, so entries differing only in description hash identically and a
description altered after hashing still validates — description tampering is
invisible to hash validation. -/
theorem computeHash_ignores_description (t : JournalEntry) (d h : String) :
    JournalEntry.computeHash { t with description := d } = t.computeHash ∧
    JournalEntry.computeHash { t with hash := h } = t.computeHash ∧
    JournalEntry.validateHash { t with hash := t.computeHash, description := d } = true := by
  refine ⟨computeHash_fields _ _ rfl rfl rfl rfl rfl rfl rfl, computeHash_set_hash t h, ?_⟩
  unfold JournalEntry.validateHash
  rw [computeHash_set_hash_description]
  exact beq_self_eq_true _

/-! ## Store model (the repository and transaction-manager contracts of
`internal/domain`, instantiated by the in-memory state the use case reads and
writes through them) -/

/-- The persistent state behind the account and journal repositories:
accounts, and journal entries in insertion order (most recent last). -/
structure StoreState where
  accounts : List Account
  journal : List JournalEntry
  deriving DecidableEq

/-- Account lookup by id (`GetAccountForUpdate` / `FindAccountByID`). -/
def findAccount (st : StoreState) (i : String) : Option Account :=
  st.accounts.find? fun a => a.id == i

/-- Journal lookup by idempotency key (`FindByIdempotencyKey`). -/
def findByIdempotencyKey (st : StoreState) (key : String) : Option JournalEntry :=
  st.journal.find? fun e => e.idempotencyKey == key

/-- The chain tail (`GetLatestJournalEntry`): the most recently saved entry. -/
def getLatestJournalEntry (st : StoreState) : Option JournalEntry :=
  st.journal.getLast?

/-- Persist an account (`SaveAccount`): replace the row with the same id. -/
def saveAccount (st : StoreState) (acc : Account) : StoreState :=
  { st with accounts := st.accounts.map fun a => if a.id == acc.id then acc else a }

/-- Persist a journal entry (`SaveJournalEntry`): append to the journal. -/
def saveJournalEntry (st : StoreState) (e : JournalEntry) : StoreState :=
  { st with journal := st.journal ++ [e] }

/-- Fault injection for the store: one flag per repository call site of
`Transfer`, true when that call returns a non-nil error. -/
structure Faults where
  findKeyFastErr : Bool
  findKeyTxErr : Bool
  getAccount1Err : Bool
  getAccount2Err : Bool
  getLatestErr : Bool
  saveAccount1Err : Bool
  saveAccount2Err : Bool
  saveJournalErr : Bool
  deriving DecidableEq

/-- The fault-free store. -/
def noFaults : Faults := ⟨false, false, false, false, false, false, false, false⟩

/-- A repository operation performed during `Transfer`, in call order. -/
inductive RepoOp where
  | findByIdemKey (key : String)
  | getAccountForUpdate (accId : String)
  | getLatest
  | saveAccount (accId : String)
  | saveJournalEntry (entryId : String)
  deriving DecidableEq

/-! ## Transfer use case (`internal/usecase/transfer.go`) -/

/-- Go `MaxTransferAmount`: 100 billion points. -/
def maxTransferAmount : Int := 100000000000

/-- Go `MaxDescriptionLength`. -/
def maxDescriptionLength : Nat := 500

/-- Lexicographic order on code-point sequences. -/
def charListLt : List Char → List Char → Bool
  | [], [] => false
  | [], _ :: _ => true
  | _ :: _, [] => false
  | a :: as, b :: bs =>
    if a.toNat < b.toNat then true
    else if b.toNat < a.toNat then false
    else charListLt as bs

/-- Go string comparison `a < b`: Go compares the UTF-8 bytes
lexicographically, which on UTF-8 coincides with code-point order. -/
def strLtGo (a b : String) : Bool := charListLt a.data b.data

/-- Whitespace exactly as Go `unicode.IsSpace` reports it, i.e. the Unicode
White_Space code points Go's table lists: U+0009-U+000D, space, U+0085,
U+00A0, U+1680, U+2000-U+200A, U+2028, U+2029, U+202F, U+205F and U+3000. -/
def isSpaceGo (c : Char) : Bool :=
  c == ' ' || c == '\t' || c == '\n' || c == Char.ofNat 11 || c == Char.ofNat 12 ||
    c == '\r' || c == Char.ofNat 133 || c == Char.ofNat 160 || c == Char.ofNat 5760 ||
    (decide (8192 ≤ c.toNat) && decide (c.toNat ≤ 8202)) || c == Char.ofNat 8232 ||
    c == Char.ofNat 8233 || c == Char.ofNat 8239 || c == Char.ofNat 8287 ||
    c == Char.ofNat 12288

/-- Go `strings.TrimSpace`: drop whitespace from both ends. -/
def trimSpace (s : String) : String :=
  String.mk (((s.data.dropWhile isSpaceGo).reverse.dropWhile isSpaceGo).reverse)

/-- The input of `TransferUseCase.Transfer`. -/
structure TransferInput where
  fromAccountId : String
  toAccountId : String
  amount : Int
  description : String
  idempotencyKey : String
  deriving DecidableEq

/-- The output of `TransferUseCase.Transfer`: entry id and creation time. -/
structure TransferOutput where
  journalEntryId : String
  createdAt : Int
  deriving DecidableEq

/-- Outcome of a `Transfer` call: the persisted state after the call, the
repository operations that were invoked, and the returned value or error. -/
structure TransferResult where
  state : StoreState
  trace : List RepoOp
  result : Except Err TransferOutput
  deriving DecidableEq

/-- The `previous_hash` value `Transfer` uses: empty when the tail fetch
errored (the code ignores that error) or when the chain is empty, otherwise
the tail's hash. -/
def chainPrevHash (st : StoreState) (f : Faults) : String :=
  if f.getLatestErr then ""
  else
    match getLatestJournalEntry st with
    | some latest => latest.hash
    | none => ""

/-- The journal entry `Transfer` constructs: fresh id, the two account ids,
amount, description, idempotency key, previous hash, current time, and its
content hash computed over those fields. -/
def mkJournalEntry (newId fromId toId : String) (amount : Int)
    (desc key prevHash : String) (now : Int) : JournalEntry :=
  let e0 : JournalEntry := ⟨newId, fromId, toId, amount, desc, key, prevHash, "", now⟩
  { e0 with hash := e0.computeHash }

/-- The body of the serialized atomic transaction of `Transfer`
(`transfer.go` lines 84-172): idempotency re-check (whose lookup error the
code ignores), canonical-order account locking, withdraw then deposit,
chain-tail fetch (whose error the code also ignores), entry construction,
and the three saves.  Returns the trace of repository calls and either an
error (the transaction manager then rolls back) or the committed state with
the resulting entry. -/
def transferTx (st : StoreState) (f : Faults) (newId : String) (now : Int)
    (input : TransferInput) : List RepoOp × Except Err (StoreState × JournalEntry) :=
  let tr0 := [RepoOp.findByIdemKey input.idempotencyKey]
  match if f.findKeyTxErr then none else findByIdempotencyKey st input.idempotencyKey with
  | some existing => (tr0, .ok (st, existing))
  | none =>
    let firstId :=
      if strLtGo input.toAccountId input.fromAccountId then input.toAccountId
      else input.fromAccountId
    let secondId :=
      if strLtGo input.toAccountId input.fromAccountId then input.fromAccountId
      else input.toAccountId
    let tr1 := tr0 ++ [RepoOp.getAccountForUpdate firstId]
    if f.getAccount1Err then (tr1, .error .storage)
    else
      match findAccount st firstId with
      | none => (tr1, .error .accountNotFound)
      | some acc1 =>
        let tr2 := tr1 ++ [RepoOp.getAccountForUpdate secondId]
        if f.getAccount2Err then (tr2, .error .storage)
        else
          match findAccount st secondId with
          | none => (tr2, .error .accountNotFound)
          | some acc2 =>
            let fromAcc := if firstId = input.fromAccountId then acc1 else acc2
            let toAcc := if firstId = input.fromAccountId then acc2 else acc1
            match fromAcc.withdraw input.amount with
            | .error e => (tr2, .error e)
            | .ok fromAcc2 =>
              match toAcc.deposit input.amount with
              | .error e => (tr2, .error e)
              | .ok toAcc2 =>
                let tr3 := tr2 ++ [RepoOp.getLatest]
                let entry := mkJournalEntry newId fromAcc2.id toAcc2.id input.amount
                  input.description input.idempotencyKey (chainPrevHash st f) now
                let tr4 := tr3 ++ [RepoOp.saveAccount fromAcc2.id]
                if f.saveAccount1Err then (tr4, .error .storage)
                else
                  let st1 := saveAccount st fromAcc2
                  let tr5 := tr4 ++ [RepoOp.saveAccount toAcc2.id]
                  if f.saveAccount2Err then (tr5, .error .storage)
                  else
                    let st2 := saveAccount st1 toAcc2
                    let tr6 := tr5 ++ [RepoOp.saveJournalEntry entry.id]
                    if f.saveJournalErr then (tr6, .error .storage)
                    else (tr6, .ok (saveJournalEntry st2 entry, entry))

/-- Go `TransferUseCase.Transfer` (`transfer.go` lines 50-183): the five
input validations, the fast idempotency check, then the serialized atomic
transaction; an error from the transaction leaves the pre-transaction state
(rollback).  `newId` stands in for `uuid.New().String()` and `now` for the
`time.Now()` instant in Unix nanoseconds. -/
def transfer (st : StoreState) (f : Faults) (newId : String) (now : Int)
    (input : TransferInput) : TransferResult :=
  if input.amount ≤ 0 then ⟨st, [], .error .invalidAmount⟩
  else if input.amount > maxTransferAmount then ⟨st, [], .error .amountTooLarge⟩
  else if input.fromAccountId = input.toAccountId then ⟨st, [], .error .selfTransfer⟩
  else if trimSpace input.idempotencyKey = "" then ⟨st, [], .error .invalidIdempotencyKey⟩
  else if maxDescriptionLength < (strBytes input.description).length then
    ⟨st, [], .error .descriptionTooLong⟩
  else
    let tr0 := [RepoOp.findByIdemKey input.idempotencyKey]
    if f.findKeyFastErr then ⟨st, tr0, .error .storage⟩
    else
      match findByIdempotencyKey st input.idempotencyKey with
      | some existing => ⟨st, tr0, .ok ⟨existing.id, existing.timestamp⟩⟩
      | none =>
        match transferTx st f newId now input with
        | (tr, .ok (st2, entry)) => ⟨st2, tr0 ++ tr, .ok ⟨entry.id, entry.timestamp⟩⟩
        | (tr, .error e) => ⟨st, tr0 ++ tr, .error e⟩

/-- Sanity check: the spec §8 scenario — X has 1000 without overdraft, Y has
0; transferring 500 succeeds, leaves X=500 and Y=500 and one chain-head
entry; replaying the identical call returns the same entry id and changes
nothing. -/
theorem transfer_scenario :
    let st0 : StoreState := ⟨[⟨"acc-x", "o1", 1000, false⟩, ⟨"acc-y", "o2", 0, false⟩], []⟩
    let inp : TransferInput := ⟨"acc-x", "acc-y", 500, "rent", "key-1"⟩
    let r := transfer st0 noFaults "tx-1" 100 inp
    r.result = .ok ⟨"tx-1", 100⟩ ∧
    findAccount r.state "acc-x" = some ⟨"acc-x", "o1", 500, false⟩ ∧
    findAccount r.state "acc-y" = some ⟨"acc-y", "o2", 500, false⟩ ∧
    r.state.journal.map JournalEntry.previousHash = [""] ∧
    (transfer r.state noFaults "tx-2" 200 inp).result = .ok ⟨"tx-1", 100⟩ ∧
    (transfer r.state noFaults "tx-2" 200 inp).state = r.state := by
  refine ⟨by decide, by decide, by decide, by decide, by decide, by decide⟩

/-! ## Lemmas about the store -/

/-- Mapping with a predicate-preserving function commutes with `find?`. -/
theorem find?_map_pres {α : Type} (p : α → Bool) (g : α → α)
    (hp : ∀ x, p (g x) = p x) :
    ∀ l : List α, (l.map g).find? p = (l.find? p).map g := by
  intro l
  induction l with
  | nil => rfl
  | cons x xs ih =>
    by_cases h : p x = true
    · rw [List.map_cons, List.find?_cons_of_pos _ (by rw [hp]; exact h),
        List.find?_cons_of_pos _ h]
      rfl
    · rw [List.map_cons, List.find?_cons_of_neg _ (by rw [hp]; exact h),
        List.find?_cons_of_neg _ h, ih]

/-- Looking an account up after a save: the same row is found, updated when
it is the saved one. -/
theorem findAccount_saveAccount (st : StoreState) (acc : Account) (i : String) :
    findAccount (saveAccount st acc) i =
      (findAccount st i).map fun a => if a.id == acc.id then acc else a := by
  unfold findAccount saveAccount
  apply find?_map_pres
  intro x
  by_cases hx : (x.id == acc.id) = true
  · have hid : x.id = acc.id := eq_of_beq hx
    simp [hx, hid]
  · simp [Bool.of_not_eq_true hx]

/-- A found account carries the id it was looked up by. -/
theorem findAccount_id (st : StoreState) (i : String) (a : Account)
    (h : findAccount st i = some a) : a.id = i := by
  unfold findAccount at h
  have hp := List.find?_some h
  exact eq_of_beq hp

/-- Saving an account does not touch the journal. -/
theorem journal_saveAccount (st : StoreState) (acc : Account) :
    (saveAccount st acc).journal = st.journal := rfl

/-- Withdraw can only change the balance. -/
theorem withdraw_ok_fields (a a2 : Account) (amount : Int)
    (h : a.withdraw amount = .ok a2) :
    a2.id = a.id ∧ a2.ownerId = a.ownerId ∧ a2.canOverdraft = a.canOverdraft ∧
      a2.balance = wrap64 (a.balance - amount) := by
  unfold Account.withdraw at h
  split_ifs at h
  cases h
  exact ⟨rfl, rfl, rfl, rfl⟩

/-- Deposit can only change the balance. -/
theorem deposit_ok_fields (a a2 : Account) (amount : Int)
    (h : a.deposit amount = .ok a2) :
    a2.id = a.id ∧ a2.ownerId = a.ownerId ∧ a2.canOverdraft = a.canOverdraft ∧
      a2.balance = wrap64 (a.balance + amount) := by
  unfold Account.deposit at h
  split_ifs at h
  cases h
  exact ⟨rfl, rfl, rfl, rfl⟩

/-! ## C5: validation order -/

/-- The five § 4.3 preconditions in the spec's order, first violation
winning: non-positive amount, excessive amount, self transfer, blank
idempotency key, oversized description. -/
def firstValidationError (input : TransferInput) : Option Err :=
  if input.amount ≤ 0 then some .invalidAmount
  else if input.amount > maxTransferAmount then some .amountTooLarge
  else if input.fromAccountId = input.toAccountId then some .selfTransfer
  else if trimSpace input.idempotencyKey = "" then some .invalidIdempotencyKey
  else if maxDescriptionLength < (strBytes input.description).length then
    some .descriptionTooLong
  else none

/-- C5: whenever the ordered § 4.3 checks reject an input, Transfer returns
exactly that first violation, touches no repository (empty call trace) and
persists nothing (state unchanged) — for every store state and every fault
pattern. -/
theorem transfer_validation_first (st : StoreState) (f : Faults) (newId : String) (now : Int)
    (input : TransferInput) (e : Err) (h : firstValidationError input = some e) :
    transfer st f newId now input = ⟨st, [], .error e⟩ := by
  unfold firstValidationError at h
  unfold transfer
  split_ifs at h ⊢ <;> simp_all

/-- C5 witness: an input violating several preconditions at once is rejected
with the first one (`InvalidAmount`), and a key consisting only of the
Unicode whitespace U+2000 and U+3000 is blank after trimming and rejected
with `InvalidIdempotencyKey` — in both cases with no repository call. -/
theorem transfer_validation_first_witness :
    transfer ⟨[], []⟩ noFaults "n" 0 ⟨"a", "a", -3, "", " "⟩ =
      ⟨⟨[], []⟩, [], .error .invalidAmount⟩ ∧
    transfer ⟨[], []⟩ noFaults "n" 0 ⟨"a", "b", 3, "", "\u2000\u3000"⟩ =
      ⟨⟨[], []⟩, [], .error .invalidIdempotencyKey⟩ :=
  ⟨transfer_validation_first ⟨[], []⟩ noFaults "n" 0 ⟨"a", "a", -3, "", " "⟩
     .invalidAmount (by decide),
   transfer_validation_first ⟨[], []⟩ noFaults "n" 0 ⟨"a", "b", 3, "", "\u2000\u3000"⟩
     .invalidIdempotencyKey (by decide)⟩

/-! ## C3: idempotent replay -/

/-- C3: when a journal entry with the input's idempotency key already exists,
a validated Transfer returns that entry's id and timestamp, performs only the
one lookup, creates nothing and changes no balance (the state is returned
unchanged) — whatever the other arguments and whatever faults would hit the
later call sites. -/
theorem transfer_idempotent (st : StoreState) (f : Faults) (newId : String) (now : Int)
    (input : TransferInput) (e : JournalEntry)
    (hval : firstValidationError input = none)
    (hf : f.findKeyFastErr = false)
    (hfind : findByIdempotencyKey st input.idempotencyKey = some e) :
    transfer st f newId now input =
      ⟨st, [RepoOp.findByIdemKey input.idempotencyKey], .ok ⟨e.id, e.timestamp⟩⟩ := by
  unfold firstValidationError at hval
  unfold transfer
  split_ifs at hval ⊢ <;> simp_all

/-- C3 witness: replaying a key present in the journal returns the stored
entry's id and timestamp and leaves the state untouched, even though the
amount and description differ from the stored entry. -/
theorem transfer_idempotent_witness :
    transfer ⟨[⟨"a", "o1", 10, false⟩, ⟨"b", "o2", 0, false⟩],
        [⟨"e0", "a", "b", 5, "d", "key-1", "", "h0", 3⟩]⟩ noFaults "e9" 99
      ⟨"a", "b", 7, "other", "key-1"⟩ =
      ⟨⟨[⟨"a", "o1", 10, false⟩, ⟨"b", "o2", 0, false⟩],
        [⟨"e0", "a", "b", 5, "d", "key-1", "", "h0", 3⟩]⟩,
       [RepoOp.findByIdemKey "key-1"], .ok ⟨"e0", 3⟩⟩ :=
  transfer_idempotent _ noFaults "e9" 99 ⟨"a", "b", 7, "other", "key-1"⟩
    ⟨"e0", "a", "b", 5, "d", "key-1", "", "h0", 3⟩ (by decide) (by decide) (by decide)

/-! ## C4: the chain-tail fetch error is swallowed -/

/-- C4 evidence: with one entry already in the journal and a failing
`GetLatestJournalEntry`, the code ignores the fetch error (line 143 of
`transfer.go` tests `err == nil && latestEntry != nil`), proceeds with an
empty previous hash, appends a second entry and reports success — instead of
aborting the attempt as the spec requires. -/
theorem getLatest_error_swallowed :
    let st : StoreState := ⟨[⟨"a", "o1", 10, false⟩, ⟨"b", "o2", 0, false⟩],
      [⟨"e0", "a", "b", 5, "", "k0", "", "deadbeef", 1⟩]⟩
    let fl : Faults := ⟨false, false, false, false, true, false, false, false⟩
    let r := transfer st fl "e1" 9 ⟨"a", "b", 1, "", "k1"⟩
    r.result = .ok ⟨"e1", 9⟩ ∧
    r.state.journal.length = 2 ∧
    r.state.journal.getLast?.map JournalEntry.previousHash = some "" ∧
    st.journal.getLast?.map JournalEntry.hash = some "deadbeef" := by
  refine ⟨by decide, by decide, by decide, by decide⟩

/-! ## C1: conservation -/

/-- C1 counterexample: a successful transfer out of an overdraft account
holding the minimum int64 balance wraps the source balance around to the
maximum int64 value, so the sum of the two balances changes (by 2^64): the
conservation equation fails at this state even though the call succeeds and
appends a journal entry. -/
theorem conservation_counterexample :
    let st : StoreState := ⟨[⟨"a", "o1", int64Min, true⟩, ⟨"b", "o2", 0, false⟩], []⟩
    let r := transfer st noFaults "e1" 7 ⟨"a", "b", 1, "", "k"⟩
    r.result = .ok ⟨"e1", 7⟩ ∧
    r.state.journal.length = 1 ∧
    findAccount st "a" = some ⟨"a", "o1", int64Min, true⟩ ∧
    findAccount st "b" = some ⟨"b", "o2", 0, false⟩ ∧
    findAccount r.state "a" = some ⟨"a", "o1", int64Max, true⟩ ∧
    findAccount r.state "b" = some ⟨"b", "o2", 1, false⟩ ∧
    int64Max + 1 ≠ int64Min + 0 := by
  refine ⟨by decide, by decide, by decide, by decide, by decide, by decide, by decide⟩

set_option maxHeartbeats 1000000 in
/-- Shape of a committed transaction: either the idempotency re-check
returned an existing entry and the state is unchanged, or the full path ran —
both accounts were loaded, withdraw then deposit succeeded, no save faulted,
and the committed state saves the two mutated accounts and appends the
freshly built entry. -/
theorem transferTx_ok_shape (st : StoreState) (f : Faults) (newId : String) (now : Int)
    (input : TransferInput) (st2 : StoreState) (entry : JournalEntry)
    (hne : input.fromAccountId ≠ input.toAccountId)
    (h : (transferTx st f newId now input).2 = .ok (st2, entry)) :
    st2 = st ∨
    ∃ fa ta fa2 ta2 : Account,
      findAccount st input.fromAccountId = some fa ∧
      findAccount st input.toAccountId = some ta ∧
      fa.withdraw input.amount = .ok fa2 ∧
      ta.deposit input.amount = .ok ta2 ∧
      entry = mkJournalEntry newId fa2.id ta2.id input.amount input.description
        input.idempotencyKey (chainPrevHash st f) now ∧
      st2 = saveJournalEntry (saveAccount (saveAccount st fa2) ta2) entry := by
  simp only [transferTx] at h
  split at h
  · left
    simp only [Except.ok.injEq, Prod.mk.injEq] at h
    exact h.1.symm
  · split at h
    · simp at h
    · split at h
      · simp at h
      · split at h
        · simp at h
        · split at h
          · simp at h
          · split at h
            · simp at h
            · split at h
              · simp at h
              · split at h
                · simp at h
                · split at h
                  · simp at h
                  · split at h
                    · simp at h
                    · right
                      rename_i x1 heqRe hga1 x2 acc1 hacc1 hga2 x3 acc2 hacc2 x4 fa2 hwd x5 ta2 hdp hs1 hs2 hs3
                      simp only [Except.ok.injEq, Prod.mk.injEq] at h
                      obtain ⟨hstate, hentry⟩ := h
                      by_cases hsw : strLtGo input.toAccountId input.fromAccountId = true
                      · simp only [hsw] at hacc1 hacc2 hwd hdp
                        simp only [if_true, ite_true] at hacc1 hacc2 hwd hdp
                        rw [if_neg (Ne.symm hne)] at hwd hdp
                        exact ⟨acc2, acc1, fa2, ta2, hacc2, hacc1, hwd, hdp, hentry.symm,
                          by rw [← hentry]; exact hstate.symm⟩
                      · have hsw2 : strLtGo input.toAccountId input.fromAccountId = false :=
                          Bool.not_eq_true _ ▸ (by simpa using hsw)
                        simp only [hsw2] at hacc1 hacc2 hwd hdp
                        simp only [Bool.false_eq_true, if_false, ite_false] at hacc1 hacc2 hwd hdp
                        simp only [if_true] at hwd hdp
                        exact ⟨acc1, acc2, fa2, ta2, hacc1, hacc2, hwd, hdp, hentry.symm,
                          by rw [← hentry]; exact hstate.symm⟩

/-- Shape of a whole Transfer call: either the state is returned unchanged
(validation failure, fast-path replay, fault, or rollback) or the ids are
distinct and the transaction committed, whose state and output are surfaced. -/
theorem transfer_state_shape (st : StoreState) (f : Faults) (newId : String) (now : Int)
    (input : TransferInput) :
    (transfer st f newId now input).state = st ∨
    (input.fromAccountId ≠ input.toAccountId ∧
     ∃ st2 entry, (transferTx st f newId now input).2 = .ok (st2, entry) ∧
       (transfer st f newId now input).state = st2 ∧
       (transfer st f newId now input).result = .ok ⟨entry.id, entry.timestamp⟩) := by
  unfold transfer
  split_ifs with h1 h2 h3 h4 h5 h6
  · exact .inl rfl
  · exact .inl rfl
  · exact .inl rfl
  · exact .inl rfl
  · exact .inl rfl
  · exact .inl rfl
  · split
    · exact .inl rfl
    · split
      · rename_i heq
        rename_i tr st2 entry
        exact .inr ⟨h3, st2, entry, by rw [heq], rfl, rfl⟩
      · exact .inl rfl

/-- A successful withdrawal requires a positive amount. -/
theorem withdraw_ok_pos (a a2 : Account) (amount : Int) (h : a.withdraw amount = .ok a2) :
    0 < amount := by
  unfold Account.withdraw at h
  split_ifs at h with h1 h2
  omega

/-- A successful deposit requires a positive amount that cannot overflow. -/
theorem deposit_ok_bounds (a a2 : Account) (amount : Int) (h : a.deposit amount = .ok a2) :
    0 < amount ∧ a.balance ≤ int64Max - amount := by
  unfold Account.deposit at h
  split_ifs at h with h1 h2
  constructor
  · omega
  · omega

/-- Appending a journal entry does not touch the accounts. -/
theorem findAccount_saveJournalEntry (st : StoreState) (e : JournalEntry) (i : String) :
    findAccount (saveJournalEntry st e) i = findAccount st i := rfl

/-- C1 (amended): whenever the source balance minus the amount stays within
int64 range (and the stored balances are in range), a Transfer call leaves
the sum of the two accounts' balances unchanged — Withdraw and Deposit apply
the same amount to the two accounts, and any failed attempt rolls back with
no persisted change, so the equation holds for every outcome, successful
calls included. -/
theorem transfer_conservation (st : StoreState) (f : Faults) (newId : String) (now : Int)
    (input : TransferInput) (fa ta : Account) (out : TransferOutput)
    (hfa : findAccount st input.fromAccountId = some fa)
    (hta : findAccount st input.toAccountId = some ta)
    (hfaMin : int64Min ≤ fa.balance - input.amount)
    (hfaMax : fa.balance ≤ int64Max)
    (htaMin : int64Min ≤ ta.balance)
    (hok : (transfer st f newId now input).result = .ok out) :
    ∃ fa2 ta2 : Account,
      findAccount (transfer st f newId now input).state input.fromAccountId = some fa2 ∧
      findAccount (transfer st f newId now input).state input.toAccountId = some ta2 ∧
      fa2.balance + ta2.balance = fa.balance + ta.balance := by
  rcases transfer_state_shape st f newId now input with hst | ⟨hne, st2, entry, htx, hst, _res⟩
  · rw [hst]
    exact ⟨fa, ta, hfa, hta, rfl⟩
  · rcases transferTx_ok_shape st f newId now input st2 entry hne htx with
      heq | ⟨fa', ta', fa2, ta2, hfa', hta', hwd, hdp, _hent, hst2⟩
    · rw [hst, heq]
      exact ⟨fa, ta, hfa, hta, rfl⟩
    · rw [hfa] at hfa'
      obtain rfl : fa = fa' := Option.some.inj hfa'
      rw [hta] at hta'
      obtain rfl : ta = ta' := Option.some.inj hta'
      have hpos := withdraw_ok_pos _ _ _ hwd
      have hdep := deposit_ok_bounds _ _ _ hdp
      have hwf := withdraw_ok_fields _ _ _ hwd
      have hdf := deposit_ok_fields _ _ _ hdp
      have hfaid : fa.id = input.fromAccountId := findAccount_id _ _ _ hfa
      have htaid : ta.id = input.toAccountId := findAccount_id _ _ _ hta
      have hbal1 : fa2.balance = fa.balance - input.amount := by
        rw [hwf.2.2.2]
        exact wrap64_eq_self _ hfaMin (by unfold int64Max at hfaMax ⊢; omega)
      have hbal2 : ta2.balance = ta.balance + input.amount := by
        rw [hdf.2.2.2]
        apply wrap64_eq_self
        · unfold int64Min at htaMin ⊢
          omega
        · unfold int64Max at hdep ⊢
          omega
      rw [hst, hst2]
      refine ⟨fa2, ta2, ?_, ?_, by omega⟩
      · rw [findAccount_saveJournalEntry, findAccount_saveAccount, findAccount_saveAccount, hfa]
        simp only [Option.map_some']
        simp [hwf.1, hdf.1, hfaid, htaid, hne]
      · rw [findAccount_saveJournalEntry, findAccount_saveAccount, findAccount_saveAccount, hta]
        simp only [Option.map_some']
        simp [hwf.1, hdf.1, hfaid, htaid, Ne.symm hne]

/-- C1 witness: the amended conservation theorem applied to the spec's
scenario state (X=1000 without overdraft, Y=0, amount 500). -/
theorem transfer_conservation_witness :
    ∃ fa2 ta2 : Account,
      findAccount (transfer ⟨[⟨"a", "o", 1000, false⟩, ⟨"b", "p", 0, false⟩], []⟩ noFaults
          "t1" 5 ⟨"a", "b", 500, "", "k"⟩).state "a" = some fa2 ∧
      findAccount (transfer ⟨[⟨"a", "o", 1000, false⟩, ⟨"b", "p", 0, false⟩], []⟩ noFaults
          "t1" 5 ⟨"a", "b", 500, "", "k"⟩).state "b" = some ta2 ∧
      fa2.balance + ta2.balance = 1000 + 0 :=
  transfer_conservation ⟨[⟨"a", "o", 1000, false⟩, ⟨"b", "p", 0, false⟩], []⟩ noFaults
    "t1" 5 ⟨"a", "b", 500, "", "k"⟩ ⟨"a", "o", 1000, false⟩ ⟨"b", "p", 0, false⟩ ⟨"t1", 5⟩
    (by decide) (by decide) (by decide) (by decide) (by decide) (by decide)

/-! ## C2: hash-chain integrity -/

/-- Chain well-formedness from a given predecessor hash: each entry links to
its predecessor (`previous_hash` of the head equals the starting value, empty
for the first entry ever) and validates. -/
def chainLinked (prev : String) : List JournalEntry → Bool
  | [] => true
  | e :: rest => (e.previousHash == prev) && e.validateHash && chainLinked e.hash rest

/-- The hash the next entry must reference: the last entry's hash, or the
starting value when the list is empty. -/
def lastHash (prev : String) : List JournalEntry → String
  | [] => prev
  | e :: rest => lastHash e.hash rest

/-- The chain-tail hash computed through `getLast?` agrees with `lastHash`. -/
theorem getLastHash_eq (l : List JournalEntry) :
    (match l.getLast? with | some e => e.hash | none => "") = lastHash "" l := by
  induction l with
  | nil => rfl
  | cons x xs ih =>
    cases xs with
    | nil => rfl
    | cons y ys =>
      rw [List.getLast?_cons_cons]
      exact ih

/-- Appending a validating entry that references the current tail keeps the
chain well-formed. -/
theorem chainLinked_append (l : List JournalEntry) : ∀ prev : String, ∀ e : JournalEntry,
    chainLinked prev l = true → e.previousHash = lastHash prev l → e.validateHash = true →
    chainLinked prev (l ++ [e]) = true := by
  induction l with
  | nil =>
    intro prev e _ hp hv
    simp only [List.nil_append, chainLinked, Bool.and_eq_true]
    refine ⟨⟨?_, hv⟩, trivial⟩
    rw [hp]
    exact beq_self_eq_true _
  | cons x xs ih =>
    intro prev e h hp hv
    have hp2 : e.previousHash = lastHash x.hash xs := hp
    simp only [chainLinked, Bool.and_eq_true] at h
    simp only [List.cons_append, chainLinked, Bool.and_eq_true]
    exact ⟨h.1, ih x.hash e h.2 hp2 hv⟩

/-- A freshly built journal entry validates. -/
theorem mkJournalEntry_validate (newId fromId toId : String) (amount : Int)
    (desc key prevHash : String) (now : Int) :
    (mkJournalEntry newId fromId toId amount desc key prevHash now).validateHash = true :=
  validateHash_set ⟨newId, fromId, toId, amount, desc, key, prevHash, "", now⟩

/-- A freshly built journal entry stores the previous hash it was given. -/
theorem mkJournalEntry_previousHash (newId fromId toId : String) (amount : Int)
    (desc key prevHash : String) (now : Int) :
    (mkJournalEntry newId fromId toId amount desc key prevHash now).previousHash = prevHash := rfl

/-- Without a tail-fetch fault, the previous hash Transfer uses is the
current tail's hash (empty for an empty chain). -/
theorem chainPrevHash_noFault (st : StoreState) (f : Faults) (hlat : f.getLatestErr = false) :
    chainPrevHash st f = lastHash "" st.journal := by
  unfold chainPrevHash getLatestJournalEntry
  rw [hlat]
  simp only [Bool.false_eq_true, if_false]
  exact getLastHash_eq st.journal

/-- The committed state appends exactly the new entry to the journal. -/
theorem journal_committed (st : StoreState) (fa2 ta2 : Account) (e : JournalEntry) :
    (saveJournalEntry (saveAccount (saveAccount st fa2) ta2) e).journal =
      st.journal ++ [e] := rfl

/-- C2: provided the chain-tail fetch does not fault, Transfer preserves
hash-chain integrity — starting from a well-linked journal (consecutive
entries satisfy `e2.previousHash = e1.hash`, the first entry's previous hash
is the empty string, and every entry validates), the journal after the call
is still well-linked, and any entry the call added validates and references
the pre-call tail's hash. -/
theorem transfer_chain_integrity (st : StoreState) (f : Faults) (newId : String) (now : Int)
    (input : TransferInput)
    (hlat : f.getLatestErr = false)
    (hchain : chainLinked "" st.journal = true) :
    chainLinked "" (transfer st f newId now input).state.journal = true ∧
    ∀ e ∈ (transfer st f newId now input).state.journal,
      e ∈ st.journal ∨
        (e.validateHash = true ∧ e.previousHash = lastHash "" st.journal) := by
  rcases transfer_state_shape st f newId now input with hst | ⟨hne, st2, entry, htx, hst, _res⟩
  · rw [hst]
    exact ⟨hchain, fun e he => .inl he⟩
  · rcases transferTx_ok_shape st f newId now input st2 entry hne htx with
      heq | ⟨fa, ta, fa2, ta2, _hfa, _hta, _hwd, _hdp, hent, hst2⟩
    · rw [hst, heq]
      exact ⟨hchain, fun e he => .inl he⟩
    · rw [hst, hst2, journal_committed]
      have hv : entry.validateHash = true := by
        rw [hent]
        exact mkJournalEntry_validate _ _ _ _ _ _ _ _
      have hp : entry.previousHash = lastHash "" st.journal := by
        rw [hent, mkJournalEntry_previousHash]
        exact chainPrevHash_noFault st f hlat
      refine ⟨chainLinked_append st.journal "" entry hchain hp hv, ?_⟩
      intro e he
      rcases List.mem_append.mp he with h | h
      · exact .inl h
      · rcases List.mem_singleton.mp h with rfl
        exact .inr ⟨hv, hp⟩

/-- C2 witness: chain integrity through the theorem at a concrete first
transfer on an empty journal. -/
theorem transfer_chain_integrity_witness :
    chainLinked "" (transfer ⟨[⟨"a", "o", 100, false⟩, ⟨"b", "p", 0, false⟩], []⟩ noFaults
      "t1" 5 ⟨"a", "b", 30, "", "k"⟩).state.journal = true :=
  (transfer_chain_integrity ⟨[⟨"a", "o", 100, false⟩, ⟨"b", "p", 0, false⟩], []⟩ noFaults
    "t1" 5 ⟨"a", "b", 30, "", "k"⟩ (by decide) (by decide)).1


/-! ## C8: canonical lock order -/


/-- Strict lexicographic order is asymmetric. -/
theorem charListLt_asymm : ∀ as bs : List Char,
    charListLt as bs = true → charListLt bs as = false := by
  intro as
  induction as with
  | nil =>
    intro bs h
    cases bs with
    | nil => simp [charListLt] at h
    | cons b bs => simp [charListLt]
  | cons a as ih =>
    intro bs h
    cases bs with
    | nil => simp [charListLt] at h
    | cons b bs =>
      by_cases h1 : a.toNat < b.toNat
      · have h2 : ¬ b.toNat < a.toNat := by omega
        simp [charListLt, h1, h2]
      · by_cases h2 : b.toNat < a.toNat
        · simp [charListLt, h1, h2] at h
        · simp [charListLt, h1, h2] at h ⊢
          exact ih bs h

/-- Two lists neither of which precedes the other are equal. -/
theorem charListLt_conn : ∀ as bs : List Char,
    charListLt as bs = false → charListLt bs as = false → as = bs := by
  intro as
  induction as with
  | nil =>
    intro bs h _
    cases bs with
    | nil => rfl
    | cons b bs => simp [charListLt] at h
  | cons a as ih =>
    intro bs h h2
    cases bs with
    | nil => simp [charListLt] at h2
    | cons b bs =>
      by_cases hab : a.toNat < b.toNat
      · simp [charListLt, hab] at h
      · by_cases hba : b.toNat < a.toNat
        · simp [charListLt, hba] at h2
        · have hc : a = b := by
            have hn : a.toNat = b.toNat := by omega
            have := congrArg Char.ofNat hn
            rwa [Char.ofNat_toNat, Char.ofNat_toNat] at this
          simp [charListLt, hab, hba] at h h2
          rw [hc, ih bs h h2]

/-- Go string comparison is asymmetric. -/
theorem strLtGo_asymm (a b : String) (h : strLtGo a b = true) : strLtGo b a = false :=
  charListLt_asymm a.data b.data h

/-- Distinct strings compare strictly in one direction. -/
theorem strLtGo_conn (a b : String) (h : strLtGo a b = false) (h2 : strLtGo b a = false) :
    a = b := by
  have hd : a.data = b.data := charListLt_conn a.data b.data h h2
  cases a
  cases b
  cases hd
  rfl



/-- Is this repository operation an exclusive account-lock acquisition? -/
def isLockOp : RepoOp → Bool
  | .getAccountForUpdate _ => true
  | _ => false

/-- The account-lock acquisitions a transaction performs, as a function of
the store, the faults, the idempotency key and the canonically ordered pair
of ids: none after a replay hit, the first id always, the second id once the
first lock call came back without fault and found its row. -/
def lockCallsModel (st : StoreState) (f : Faults) (key first second : String) : List RepoOp :=
  match if f.findKeyTxErr then none else findByIdempotencyKey st key with
  | some _ => []
  | none =>
    if f.getAccount1Err then [RepoOp.getAccountForUpdate first]
    else
      match findAccount st first with
      | none => [RepoOp.getAccountForUpdate first]
      | some _ => [RepoOp.getAccountForUpdate first, RepoOp.getAccountForUpdate second]

theorem transferTx_filter_lock (st : StoreState) (f : Faults) (newId : String) (now : Int)
    (input : TransferInput) :
    (transferTx st f newId now input).1.filter isLockOp =
      lockCallsModel st f input.idempotencyKey
        (if strLtGo input.toAccountId input.fromAccountId then input.toAccountId
         else input.fromAccountId)
        (if strLtGo input.toAccountId input.fromAccountId then input.fromAccountId
         else input.toAccountId) := by
  unfold transferTx lockCallsModel
  split <;> rename_i heq <;> simp only [heq]
  · simp [isLockOp]
  · repeat' split
    all_goals simp_all [isLockOp]





theorem lockCallsModel_le_pair (st : StoreState) (f : Faults) (key first second : String) :
    lockCallsModel st f key first second <+:
      [RepoOp.getAccountForUpdate first, RepoOp.getAccountForUpdate second] := by
  unfold lockCallsModel
  split
  · exact List.nil_prefix
  · split
    · exact ⟨[RepoOp.getAccountForUpdate second], rfl⟩
    · split
      · exact ⟨[RepoOp.getAccountForUpdate second], rfl⟩
      · exact List.prefix_refl _

theorem lockIds_symm (a b : String) (hne : a ≠ b) :
    ((if strLtGo b a then b else a) = if strLtGo a b then a else b) ∧
    ((if strLtGo b a then a else b) = if strLtGo a b then b else a) := by
  by_cases hab : strLtGo a b = true
  · have hba := strLtGo_asymm a b hab
    simp [hab, hba]
  · have hab2 : strLtGo a b = false := by simpa using hab
    by_cases hba : strLtGo b a = true
    · simp [hab2, hba]
    · have hba2 : strLtGo b a = false := by simpa using hba
      exact absurd (strLtGo_conn a b hab2 hba2) hne

/-- The account-lock acquisitions of a whole Transfer call: none when
validation or the fast idempotency path ends the call, otherwise those of the
transaction body. -/
def transferLockCalls (st : StoreState) (f : Faults) (input : TransferInput) : List RepoOp :=
  if input.amount <= 0 then []
  else if input.amount > maxTransferAmount then []
  else if input.fromAccountId = input.toAccountId then []
  else if trimSpace input.idempotencyKey = "" then []
  else if maxDescriptionLength < (strBytes input.description).length then []
  else if f.findKeyFastErr then []
  else
    match findByIdempotencyKey st input.idempotencyKey with
    | some _ => []
    | none =>
      lockCallsModel st f input.idempotencyKey
        (if strLtGo input.toAccountId input.fromAccountId then input.toAccountId
         else input.fromAccountId)
        (if strLtGo input.toAccountId input.fromAccountId then input.fromAccountId
         else input.toAccountId)

theorem transfer_filter_lock (st : StoreState) (f : Faults) (newId : String) (now : Int)
    (input : TransferInput) :
    (transfer st f newId now input).trace.filter isLockOp = transferLockCalls st f input := by
  unfold transfer transferLockCalls
  split
  · rfl
  · split
    · rfl
    · split
      · rfl
      · split
        · rfl
        · split
          · rfl
          · split
            · simp [isLockOp]
            · split
              · rename_i latest hkey
                try rw [hkey]
                simp [isLockOp]
              · rename_i hkey
                try rw [hkey]
                split
                · rename_i heq
                  have hA := transferTx_filter_lock st f newId now input
                  rw [heq] at hA
                  simp at hA
                  simp [List.filter_append, List.filter, isLockOp, hA]
                · rename_i heq
                  have hA := transferTx_filter_lock st f newId now input
                  rw [heq] at hA
                  simp at hA
                  simp [List.filter_append, List.filter, isLockOp, hA]

theorem transfer_lock_order (st : StoreState) (f : Faults) (newId : String) (now : Int)
    (amount : Int) (desc key : String) (a b : String) (hne : a ≠ b) :
    (transfer st f newId now ⟨a, b, amount, desc, key⟩).trace.filter isLockOp =
      (transfer st f newId now ⟨b, a, amount, desc, key⟩).trace.filter isLockOp ∧
    (transfer st f newId now ⟨a, b, amount, desc, key⟩).trace.filter isLockOp <+:
      [RepoOp.getAccountForUpdate (if strLtGo b a then b else a),
       RepoOp.getAccountForUpdate (if strLtGo b a then a else b)] := by
  have hsym := lockIds_symm a b hne
  constructor
  · rw [transfer_filter_lock, transfer_filter_lock]
    unfold transferLockCalls
    simp only [if_neg hne, if_neg (Ne.symm hne)]
    rw [hsym.1, hsym.2]
  · rw [transfer_filter_lock]
    unfold transferLockCalls
    split_ifs <;>
      first
        | exact List.nil_prefix
        | exact lockCallsModel_le_pair _ _ _ _ _
        | (split
           · exact List.nil_prefix
           · exact lockCallsModel_le_pair _ _ _ _ _)


/-- C8: the lock-acquisition sequence is canonical — for distinct account ids
the calls `Transfer(a, b, ...)` and `Transfer(b, a, ...)` perform exactly the
same sequence of exclusive account-lock acquisitions, and that sequence is a
prefix of [smaller id, larger id] in Go's byte-wise string order.  (The
theorem `transfer_lock_order` below carries this statement; the preceding
lemmas characterise the lock calls of one run.) -/
theorem transfer_lock_order_canonical (st : StoreState) (f : Faults) (newId : String)
    (now : Int) (amount : Int) (desc key : String) (a b : String) (hne : a ≠ b) :
    (transfer st f newId now ⟨a, b, amount, desc, key⟩).trace.filter isLockOp =
      (transfer st f newId now ⟨b, a, amount, desc, key⟩).trace.filter isLockOp ∧
    (transfer st f newId now ⟨a, b, amount, desc, key⟩).trace.filter isLockOp <+:
      [RepoOp.getAccountForUpdate (if strLtGo b a then b else a),
       RepoOp.getAccountForUpdate (if strLtGo b a then a else b)] :=
  transfer_lock_order st f newId now amount desc key a b hne

/-- C8 witness: the canonical lock order at a concrete pair of ids. -/
theorem transfer_lock_order_witness :
    (transfer ⟨[], []⟩ noFaults "t" 0 ⟨"a", "b", 5, "", "k"⟩).trace.filter isLockOp =
      (transfer ⟨[], []⟩ noFaults "t" 0 ⟨"b", "a", 5, "", "k"⟩).trace.filter isLockOp :=
  (transfer_lock_order_canonical ⟨[], []⟩ noFaults "t" 0 5 "" "k" "a" "b" (by decide)).1

end Cornucopia
